import Mathlib

/-!
# Verification of `psfFitting.py` (repository P3)

Shallow embedding of the core fitting routine `psfFitting` from
`src/_psfFitting/psfFitting.py` and proofs of its specified properties.

Modelling conventions:
* scalars (numpy floats) are rationals `ℚ`;
* a 2-D numpy array (image, weight map) is a `List (List ℚ)` of rows;
  `len(arr)` of a 2-D array is its number of rows, i.e. `List.length`;
* a 1-D parameter vector is a `List ℚ`, a fixed mask a `List Bool`;
* `np.sqrt` is an abstract scalar function `sqrtFn : ℚ → ℚ` passed as a
  parameter (its numeric value is irrelevant to every claim below);
* the scipy solver `least_squares` and the external routine
  `confidence_interval` are opaque collaborators, passed as parameters;
  the record `SolverCall` captures exactly what `psfFitting` hands to
  `least_squares` (method string, reduced initial guess, bounds or none);
* `raise ValueError` is modelled with `Except String`.
-/

namespace PsfFit

/-- `np.where([not fixed[i] for i in range(len(fixed))])[0]` starting the
index count at `n`: the increasing list of indices `i` (offset by `n`)
with `fixed[i] = False`. -/
def indFreeAux : List Bool → Nat → List Nat
  | [], _ => []
  | b :: bs, n => if b then indFreeAux bs (n + 1) else n :: indFreeAux bs (n + 1)

/-- `INDFREE = np.where(FREE)[0]` where `FREE = [not fixed[i] for i in range(len(fixed))]`
(psfFitting.py lines 104–105). -/
def INDFREE (fixed : List Bool) : List Nat :=
  indFreeAux fixed 0

/-- `input2mini(x)` (lines 114–118): `np.take(x, INDFREE)` when a fixed mask
is present, identity otherwise. -/
def input2mini (fixed : Option (List Bool)) (x : List ℚ) : List ℚ :=
  match fixed with
  | none => x
  | some f => (INDFREE f).map (fun i => x.getD i 0)

/-- The write loop `for i in range(len(y)): xall[INDFREE[i]] = y[i]`
(lines 129–130), folded over the index list and `y` simultaneously. -/
def writeFree (xall : List ℚ) : List Nat → List ℚ → List ℚ
  | i :: is, v :: vs => writeFree (xall.set i v) is vs
  | _, _ => xall

/-- `mini2input(y, forceZero=False)` (lines 120–131): identity when no fixed
mask; otherwise start from `np.zeros_like(x0)` (`forceZero`) or `np.copy(x0)`
and overwrite the entries at the free indices with `y` in order. -/
def mini2input (x0 : List ℚ) (fixed : Option (List Bool)) (y : List ℚ)
    (forceZero : Bool) : List ℚ :=
  match fixed with
  | none => y
  | some f =>
    let xall := if forceZero then List.replicate x0.length 0 else x0
    writeFree xall (INDFREE f) y

/-- `get_bounds(inst)` (lines 107–112): reduce the model's lower and upper
bound sequences by `np.take(·, INDFREE)` when a fixed mask is present. -/
def get_bounds (fixed : Option (List Bool)) (bounds : List ℚ × List ℚ) :
    List ℚ × List ℚ :=
  let b_low := match fixed with
    | none => bounds.1
    | some f => (INDFREE f).map (fun i => bounds.1.getD i 0)
  let b_up := match fixed with
    | none => bounds.2
    | some f => (INDFREE f).map (fun i => bounds.2.getD i 0)
  (b_low, b_up)

/-- Elementwise difference of two images, `psf - image`. -/
def matSub (a b : List (List ℚ)) : List (List ℚ) :=
  List.zipWith (List.zipWith (fun x y => x - y)) a b

/-- Elementwise product of two images, `sqW * (...)`. -/
def matHad (a b : List (List ℚ)) : List (List ℚ) :=
  List.zipWith (List.zipWith (fun x y => x * y)) a b

/-- `np.ones_like(image)` (line 86). -/
def onesLike (image : List (List ℚ)) : List (List ℚ) :=
  image.map (fun row => List.replicate row.length 1)

/-- The progress-tick condition of `CostClass.__call__` (line 95):
`(self.iter % 3) == 0 and (method == 'lm' or verbose != 2)`, evaluated on the
counter value *before* it is incremented. -/
def tickCond (method : String) (verbose : ℤ) (iter : Nat) : Bool :=
  (iter % 3 == 0) && (method == "lm" || verbose != 2)

/-- One invocation of the cost callable (lines 94–98) on a free-parameter
vector `y`, with current iteration counter `iter`. Returns the flattened
residual `(sqW * (psf - image)).reshape(-1)`, the new counter value, and
whether a progress tick was printed. -/
def costCall (sqW image : List (List ℚ)) (psfModelInst : List ℚ → List (List ℚ))
    (x0 : List ℚ) (fixed : Option (List Bool)) (method : String) (verbose : ℤ)
    (iter : Nat) (y : List ℚ) : List ℚ × Nat × Bool :=
  let tick := tickCond method verbose iter
  let psf := psfModelInst (mini2input x0 fixed y false)
  ((matHad sqW (matSub psf image)).flatten, iter + 1, tick)

/-- What `psfFitting` hands to `scipy.optimize.least_squares`: the method
string, the reduced initial guess, and the reduced bounds (`none` when the
`bounds` keyword is not passed at all). -/
structure SolverCall where
  method : String
  x0mini : List ℚ
  bounds : Option (List ℚ × List ℚ)
  deriving DecidableEq, Repr

/-- The raw output of the opaque solver: reduced optimal vector `x`,
residual vector `fun_` and Jacobian `jac` at the optimum. -/
structure SolverOutput where
  x : List ℚ
  fun_ : List ℚ
  jac : List (List ℚ)
  deriving DecidableEq, Repr

/-- The `least_squares` call `psfFitting` makes (lines 134–139): `trf` with
the reduced bounds when `method == 'trf'`, otherwise `lm` with no bounds. -/
def solverCall (fixed : Option (List Bool)) (x0 : List ℚ) (method : String)
    (modelBounds : List ℚ × List ℚ) : SolverCall :=
  if method = "trf" then
    { method := "trf", x0mini := input2mini fixed x0,
      bounds := some (get_bounds fixed modelBounds) }
  else
    { method := "lm", x0mini := input2mini fixed x0, bounds := none }

/-- The fields of the result record that the claims are about. External
image-quality metrics (Strehl, FWHM, mse/mae/fvu of
`evaluateFittingQuality`) are opaque collaborators and are not recorded. -/
structure FitResult where
  x : List ℚ
  xinit : List ℚ
  xerr : List ℚ
  call : SolverCall
  deriving DecidableEq, Repr

/-- The successful tail of `psfFitting` (lines 134–149) once both input
validations have passed: dispatch on `method`, run the opaque solver, expand
the reduced optimum and the confidence half-widths back to full length
(both through `mini2input` with its default `forceZero=False`), and record
the initial guess. `w` is the resolved weight map, `sqW` its elementwise
square root (line 88). -/
def fitRecord (image : List (List ℚ)) (psfModelInst : List ℚ → List (List ℚ))
    (modelBounds : List ℚ × List ℚ) (x0 : List ℚ) (w : List (List ℚ))
    (fixed : Option (List Bool)) (method : String) (verbose : ℤ)
    (sqrtFn : ℚ → ℚ)
    (solver : SolverCall → (Nat → List ℚ → List ℚ × Nat × Bool) → SolverOutput)
    (confidence_interval : List ℚ → List (List ℚ) → List ℚ) : FitResult :=
  let sqW := w.map (fun row => row.map sqrtFn)
  let cost := costCall sqW image psfModelInst x0 fixed method verbose
  let call := solverCall fixed x0 method modelBounds
  let out := solver call cost
  { x := mini2input x0 fixed out.x false
    xinit := x0
    xerr := mini2input x0 fixed (confidence_interval out.fun_ out.jac) false
    call := call }

/-- The fixed-mask validation (lines 102–103): when `fixed` is given its
length must equal `len(x0)`, otherwise `ValueError` is raised before the
solver is invoked. -/
def checkFixedThen (x0 : List ℚ) (fixed : Option (List Bool))
    (k : Unit → FitResult) : Except String FitResult :=
  match fixed with
  | none => Except.ok (k ())
  | some f =>
    if f.length ≠ x0.length then
      Except.error "When defined, fixed must be same size as x0"
    else Except.ok (k ())

/-- The weight map actually used by the fit: `np.ones_like(image)` when the
keyword is omitted (line 86), the given map otherwise. -/
def usedWeights (image : List (List ℚ)) (weights : Option (List (List ℚ))) :
    List (List ℚ) :=
  match weights with
  | none => onesLike image
  | some w => w

/-- Shallow embedding of `psfFitting` (lines 86–149), restricted to the
input validation, the solver dispatch and the parameter bookkeeping.
`solver` is the opaque `scipy.optimize.least_squares` (it receives the call
description and the cost callable), `confidence_interval` the opaque
external routine. `raise ValueError` is `Except.error`. The weights check
(line 87) compares `len(image)` with `len(weights)`, i.e. the numbers of
rows of the two 2-D arrays. -/
def psfFitting (image : List (List ℚ)) (psfModelInst : List ℚ → List (List ℚ))
    (modelBounds : List ℚ × List ℚ) (x0 : List ℚ)
    (weights : Option (List (List ℚ))) (fixed : Option (List Bool))
    (method : String) (verbose : ℤ) (sqrtFn : ℚ → ℚ)
    (solver : SolverCall → (Nat → List ℚ → List ℚ × Nat × Bool) → SolverOutput)
    (confidence_interval : List ℚ → List (List ℚ) → List ℚ) :
    Except String FitResult :=
  let continue_ := fun w => checkFixedThen x0 fixed fun _ =>
    fitRecord image psfModelInst modelBounds x0 w fixed method verbose sqrtFn
      solver confidence_interval
  match weights with
  | none => continue_ (onesLike image)
  | some w =>
    if image.length ≠ w.length then
      Except.error "Keyword weights must have same number of elements as psf"
    else continue_ w

/-- `np.size` of a 2-D array: total element count (neither `len(image)` nor
`len(weights)` — `len` of a 2-D numpy array is its number of rows). -/
def numel (m : List (List ℚ)) : Nat :=
  (m.map List.length).sum

/-! ### Buffer-level model of `mini2input`

`mini2input` mutates the array `xall` in place; whether the caller's `x0`
buffer survives depends on `xall` being a *fresh* buffer (`np.copy(x0)` /
`np.zeros_like(x0)`, lines 126–128) rather than an alias of `x0`. To state
that frame property we render the function once more against an explicit
heap of array buffers. -/

/-- A heap of numpy array buffers, addressed by allocation order. -/
abbrev Heap := List (List ℚ)

/-- Read the buffer at address `r`. -/
def heapRead (h : Heap) (r : Nat) : List ℚ :=
  h.getD r []

/-- In-place update `buf[i] = v` of the buffer at address `r`. -/
def heapWrite (h : Heap) (r i : Nat) (v : ℚ) : Heap :=
  h.set r ((h.getD r []).set i v)

/-- Allocate a fresh buffer holding `v`; returns the new heap and the fresh
address. -/
def heapAlloc (h : Heap) (v : List ℚ) : Heap × Nat :=
  (h ++ [v], h.length)

/-- The write loop of `mini2input` acting on the buffer at address `r`. -/
def writeFreeHeap (h : Heap) (r : Nat) : List Nat → List ℚ → Heap
  | i :: is, v :: vs => writeFreeHeap (heapWrite h r i v) r is vs
  | _, _ => h

/-- `mini2input` against the buffer heap: `x0` lives in the buffer at
`x0ref`; `np.copy(x0)` / `np.zeros_like(x0)` allocate a fresh buffer, the
write loop then mutates only that fresh buffer. (In the `fixed is None`
branch the result `xall = y` is the solver's own vector `y`, modelled as a
buffer distinct from `x0`'s.) Returns the final heap and the address of the
returned array. -/
def mini2inputHeap (h : Heap) (x0ref : Nat) (fixed : Option (List Bool))
    (y : List ℚ) (forceZero : Bool) : Heap × Nat :=
  match fixed with
  | none => heapAlloc h y
  | some f =>
    let x0val := heapRead h x0ref
    let init := if forceZero then List.replicate x0val.length 0 else x0val
    let p := heapAlloc h init
    (writeFreeHeap p.1 p.2 (INDFREE f) y, p.2)

/-! ## Helper lemmas about the free-index list -/

theorem le_of_mem_indFreeAux :
    ∀ (f : List Bool) (n i : Nat), i ∈ indFreeAux f n → n ≤ i := by
  intro f
  induction f with
  | nil => intro n i h; simp [indFreeAux] at h
  | cons b bs ih =>
    intro n i h
    cases b with
    | true =>
      simp only [indFreeAux, if_true] at h
      exact Nat.le_of_succ_le (ih (n + 1) i h)
    | false =>
      simp only [indFreeAux, if_false, List.mem_cons,
        Bool.false_eq_true] at h
      rcases h with rfl | hmem
      · exact Nat.le_refl i
      · exact Nat.le_of_succ_le (ih (n + 1) i hmem)

theorem mem_indFreeAux :
    ∀ (f : List Bool) (n j : Nat),
      n + j ∈ indFreeAux f n ↔ (j < f.length ∧ f.getD j true = false) := by
  intro f
  induction f with
  | nil => intro n j; simp [indFreeAux]
  | cons b bs ih =>
    intro n j
    cases j with
    | zero =>
      cases b with
      | true =>
        simp only [indFreeAux, if_true]
        constructor
        · intro h
          have := le_of_mem_indFreeAux bs (n + 1) (n + 0) h
          omega
        · intro h
          simp [List.getD] at h
      | false =>
        simp [indFreeAux, List.getD]
    | succ j' =>
      have harith : n + (j' + 1) = (n + 1) + j' := by omega
      cases b with
      | true =>
        rw [harith]
        simp only [indFreeAux, if_true, ih (n + 1) j']
        simp [List.getD]
      | false =>
        rw [harith]
        simp only [indFreeAux, if_false, List.mem_cons, Bool.false_eq_true]
        have hne : (n + 1) + j' ≠ n := by omega
        simp only [hne, false_or, ih (n + 1) j']
        simp [List.getD]

theorem mem_INDFREE (f : List Bool) (i : Nat) :
    i ∈ INDFREE f ↔ (i < f.length ∧ f.getD i true = false) := by
  have := mem_indFreeAux f 0 i
  simpa [INDFREE] using this

theorem nodup_indFreeAux : ∀ (f : List Bool) (n : Nat), (indFreeAux f n).Nodup := by
  intro f
  induction f with
  | nil => intro n; simp [indFreeAux]
  | cons b bs ih =>
    intro n
    cases b with
    | true => simpa [indFreeAux] using ih (n + 1)
    | false =>
      simp only [indFreeAux, if_false, List.nodup_cons, Bool.false_eq_true]
      refine ⟨fun hmem => ?_, ih (n + 1)⟩
      have := le_of_mem_indFreeAux bs (n + 1) n hmem
      omega

theorem nodup_INDFREE (f : List Bool) : (INDFREE f).Nodup :=
  nodup_indFreeAux f 0

theorem length_indFreeAux :
    ∀ (f : List Bool) (n : Nat),
      (indFreeAux f n).length = f.countP (fun b => !b) := by
  intro f
  induction f with
  | nil => intro n; simp [indFreeAux]
  | cons b bs ih =>
    intro n
    simp only [indFreeAux]
    by_cases hb : b
    · simp [hb, List.countP_cons, ih (n + 1)]
    · simp [hb, List.countP_cons, ih (n + 1)]

theorem length_INDFREE (f : List Bool) :
    (INDFREE f).length = f.countP (fun b => !b) :=
  length_indFreeAux f 0

/-! ## Helper lemmas about the write-back loop -/

theorem getD_writeFree_not_mem :
    ∀ (ind : List Nat) (y xall : List ℚ) (i : Nat), i ∉ ind →
      (writeFree xall ind y).getD i 0 = xall.getD i 0 := by
  intro ind
  induction ind with
  | nil => intro y xall i _; cases y <;> rfl
  | cons j is ih =>
    intro y xall i hi
    cases y with
    | nil => rfl
    | cons v vs =>
      simp only [List.mem_cons, not_or] at hi
      simp only [writeFree]
      rw [ih vs (xall.set j v) i hi.2]
      simp [List.getD_eq_getElem?_getD, List.getElem?_set_ne (Ne.symm hi.1)]

theorem length_writeFree :
    ∀ (ind : List Nat) (y xall : List ℚ),
      (writeFree xall ind y).length = xall.length := by
  intro ind
  induction ind with
  | nil => intro y xall; cases y <;> rfl
  | cons j is ih =>
    intro y xall
    cases y with
    | nil => rfl
    | cons v vs => simp only [writeFree]; rw [ih vs]; simp

theorem getD_writeFree_map :
    ∀ (ind : List Nat) (g : Nat → ℚ) (xall : List ℚ) (i : Nat),
      ind.Nodup → (∀ j ∈ ind, j < xall.length) → i ∈ ind →
      (writeFree xall ind (ind.map g)).getD i 0 = g i := by
  intro ind
  induction ind with
  | nil => intro g xall i _ _ hi; simp at hi
  | cons j is ih =>
    intro g xall i hnd hlt hi
    simp only [List.nodup_cons] at hnd
    simp only [List.map_cons, writeFree]
    rcases List.mem_cons.mp hi with hij | hmem
    · subst hij
      rw [getD_writeFree_not_mem is (is.map g) (xall.set i (g i)) i hnd.1]
      have hlen : i < xall.length := hlt i (List.mem_cons_self i is)
      simp [List.getD_eq_getElem?_getD, List.getElem?_set_self, hlen]
    · exact ih g (xall.set j (g j)) i hnd.2
        (fun k hk => by simpa using hlt k (List.mem_cons_of_mem j hk)) hmem

/-! ## Shape lemmas for the residual -/

theorem length_flatten_of_rows (m : List (List ℚ)) (W : Nat)
    (h : ∀ r ∈ m, r.length = W) : m.flatten.length = m.length * W := by
  induction m with
  | nil => simp
  | cons r rs ih =>
    simp only [List.flatten_cons, List.length_append, List.length_cons]
    rw [h r (List.mem_cons_self r rs),
      ih (fun s hs => h s (List.mem_cons_of_mem r hs))]
    ring

theorem shape_zipWith (g : ℚ → ℚ → ℚ) :
    ∀ (a b : List (List ℚ)) (W : Nat), a.length = b.length →
      (∀ r ∈ a, r.length = W) → (∀ r ∈ b, r.length = W) →
      (List.zipWith (List.zipWith g) a b).length = a.length ∧
      ∀ r ∈ List.zipWith (List.zipWith g) a b, r.length = W := by
  intro a
  induction a with
  | nil => intro b W _ _ _; simp
  | cons r rs ih =>
    intro b W hlen ha hb
    cases b with
    | nil => simp at hlen
    | cons s ss =>
      simp only [List.length_cons] at hlen
      obtain ⟨ih1, ih2⟩ := ih ss W (by omega)
        (fun t ht => ha t (List.mem_cons_of_mem r ht))
        (fun t ht => hb t (List.mem_cons_of_mem s ht))
      constructor
      · simp [List.zipWith_cons_cons, ih1]
      · intro t ht
        simp only [List.zipWith_cons_cons, List.mem_cons] at ht
        rcases ht with rfl | ht
        · rw [List.length_zipWith, ha r (List.mem_cons_self r rs),
            hb s (List.mem_cons_self s ss), Nat.min_self]
        · exact ih2 t ht

/-! ## Inversion of a successful fit -/

/-- A successful `psfFitting` call returns exactly the record built by
`fitRecord` on the resolved weight map: both validations passed and
everything downstream is deterministic in the inputs. -/
theorem psfFitting_ok (image : List (List ℚ))
    (psfModelInst : List ℚ → List (List ℚ)) (modelBounds : List ℚ × List ℚ)
    (x0 : List ℚ) (weights : Option (List (List ℚ)))
    (fixed : Option (List Bool)) (method : String) (verbose : ℤ)
    (sqrtFn : ℚ → ℚ)
    (solver : SolverCall → (Nat → List ℚ → List ℚ × Nat × Bool) → SolverOutput)
    (confidence_interval : List ℚ → List (List ℚ) → List ℚ) (r : FitResult)
    (h : psfFitting image psfModelInst modelBounds x0 weights fixed method
      verbose sqrtFn solver confidence_interval = Except.ok r) :
    r = fitRecord image psfModelInst modelBounds x0 (usedWeights image weights)
      fixed method verbose sqrtFn solver confidence_interval := by
  cases weights with
  | none =>
    simp only [psfFitting, usedWeights] at h ⊢
    cases fixed with
    | none =>
      simp only [checkFixedThen, Except.ok.injEq] at h
      exact h.symm
    | some f =>
      simp only [checkFixedThen] at h
      split at h
      · exact absurd h (by simp)
      · simp only [Except.ok.injEq] at h
        exact h.symm
  | some w =>
    simp only [psfFitting, usedWeights] at h ⊢
    split at h
    · exact absurd h (by simp)
    · cases fixed with
      | none =>
        simp only [checkFixedThen, Except.ok.injEq] at h
        exact h.symm
      | some f =>
        simp only [checkFixedThen] at h
        split at h
        · exact absurd h (by simp)
        · simp only [Except.ok.injEq] at h
          exact h.symm

/-! ## Claim theorems -/

/-- C1: Fixed-parameter invariance — for every call to `psfFitting` with a
fixed mask where `fixed[i]` is true, the `i`-th entry of the returned
result's full parameter vector `result.x` equals `x0[i]` (the initial
guess), exactly, regardless of what reduced vector the solver returns. -/
theorem psfFitting_fixed_invariance (image : List (List ℚ))
    (psfModelInst : List ℚ → List (List ℚ)) (modelBounds : List ℚ × List ℚ)
    (x0 : List ℚ) (weights : Option (List (List ℚ))) (f : List Bool)
    (method : String) (verbose : ℤ) (sqrtFn : ℚ → ℚ)
    (solver : SolverCall → (Nat → List ℚ → List ℚ × Nat × Bool) → SolverOutput)
    (confidence_interval : List ℚ → List (List ℚ) → List ℚ) (r : FitResult)
    (i : Nat)
    (hok : psfFitting image psfModelInst modelBounds x0 weights (some f)
      method verbose sqrtFn solver confidence_interval = Except.ok r)
    (hfix : f.getD i true = true) :
    r.x.getD i 0 = x0.getD i 0 := by
  have hr := psfFitting_ok image psfModelInst modelBounds x0 weights (some f)
    method verbose sqrtFn solver confidence_interval r hok
  have hnot : i ∉ INDFREE f := by
    intro hmem
    have hchar := (mem_INDFREE f i).mp hmem
    rw [hfix] at hchar
    exact absurd hchar.2 (by simp)
  rw [hr]
  simp only [fitRecord, mini2input, Bool.false_eq_true, if_false]
  exact getD_writeFree_not_mem _ _ _ i hnot

/-- Witness for C1: a concrete fit with mask `[true, false, true]` and a
solver stub returning `[99]`; entry `0` of the result is the initial `1`. -/
theorem psfFitting_fixed_invariance_witness :
    (psfFitting [[(1 : ℚ)]] (fun _ => [[1]]) ([0, 0, 0], [9, 9, 9])
        [1, 2, 3] none (some [true, false, true]) "trf" 0 id
        (fun _ _ => ⟨[99], [0], [[1]]⟩) (fun _ _ => [5]) =
      Except.ok ⟨[1, 99, 3], [1, 2, 3], [1, 5, 3],
        ⟨"trf", [2], some ([0], [9])⟩⟩) ∧
    ([true, false, true].getD 0 true = true) ∧
    (([1, 99, 3] : List ℚ).getD 0 0 = ([1, 2, 3] : List ℚ).getD 0 0) :=
  ⟨rfl, by decide,
    psfFitting_fixed_invariance [[(1 : ℚ)]] (fun _ => [[1]])
      ([0, 0, 0], [9, 9, 9]) [1, 2, 3] none [true, false, true] "trf" 0 id
      (fun _ _ => ⟨[99], [0], [[1]]⟩) (fun _ _ => [5])
      ⟨[1, 99, 3], [1, 2, 3], [1, 5, 3], ⟨"trf", [2], some ([0], [9])⟩⟩ 0
      rfl (by decide)⟩

/-- C2: Method dispatch — if `method = "trf"`, `psfFitting` invokes the
bounded trust-region-reflective solver with the bounds reduced by
`get_bounds`; for every other method value (including `"dogbox"`) it
invokes the unconstrained Levenberg–Marquardt solver (`"lm"`) and passes no
bounds at all. -/
theorem psfFitting_method_dispatch (image : List (List ℚ))
    (psfModelInst : List ℚ → List (List ℚ)) (modelBounds : List ℚ × List ℚ)
    (x0 : List ℚ) (weights : Option (List (List ℚ)))
    (fixed : Option (List Bool)) (method : String) (verbose : ℤ)
    (sqrtFn : ℚ → ℚ)
    (solver : SolverCall → (Nat → List ℚ → List ℚ × Nat × Bool) → SolverOutput)
    (confidence_interval : List ℚ → List (List ℚ) → List ℚ) (r : FitResult)
    (hok : psfFitting image psfModelInst modelBounds x0 weights fixed method
      verbose sqrtFn solver confidence_interval = Except.ok r) :
    (method = "trf" →
      r.call = { method := "trf", x0mini := input2mini fixed x0,
                 bounds := some (get_bounds fixed modelBounds) }) ∧
    (method ≠ "trf" →
      r.call = { method := "lm", x0mini := input2mini fixed x0,
                 bounds := none }) := by
  have hr := psfFitting_ok image psfModelInst modelBounds x0 weights fixed
    method verbose sqrtFn solver confidence_interval r hok
  rw [hr]
  simp only [fitRecord]
  constructor
  · intro hm; simp [solverCall, hm]
  · intro hm; simp [solverCall, hm]

/-- Witness for C2: a concrete call with `method = "dogbox"` dispatches to
`"lm"` with no bounds. -/
theorem psfFitting_method_dispatch_witness :
    (psfFitting [[(1 : ℚ)]] (fun _ => [[1]]) ([0, 0], [9, 9]) [1, 2] none
        none "dogbox" 0 id (fun _ _ => ⟨[3, 4], [0], [[1]]⟩)
        (fun _ _ => [5, 6]) =
      Except.ok ⟨[3, 4], [1, 2], [5, 6], ⟨"lm", [1, 2], none⟩⟩) ∧
    (FitResult.call ⟨[3, 4], [1, 2], [5, 6], ⟨"lm", [1, 2], none⟩⟩ =
      { method := "lm", x0mini := input2mini none [1, 2], bounds := none }) :=
  ⟨rfl,
    (psfFitting_method_dispatch [[(1 : ℚ)]] (fun _ => [[1]]) ([0, 0], [9, 9])
      [1, 2] none none "dogbox" 0 id (fun _ _ => ⟨[3, 4], [0], [[1]]⟩)
      (fun _ _ => [5, 6]) ⟨[3, 4], [1, 2], [5, 6], ⟨"lm", [1, 2], none⟩⟩
      rfl).2 (by decide)⟩

/-- C4: Mapper round-trip — for every full parameter vector `x` and fixed
mask `f` of matching length, `mini2input (input2mini x) forceZero:=false`
yields a vector that equals `x` at each free index and the original `x0` at
each fixed index; with no mask both maps are the identity. -/
theorem mini2input_input2mini_roundtrip (x0 x y : List ℚ) (f : List Bool)
    (i : Nat) (_hx : x.length = f.length) (hx0 : x0.length = f.length) :
    (i < f.length → f.getD i true = false →
      (mini2input x0 (some f) (input2mini (some f) x) false).getD i 0 =
        x.getD i 0) ∧
    (f.getD i true = true →
      (mini2input x0 (some f) (input2mini (some f) x) false).getD i 0 =
        x0.getD i 0) ∧
    input2mini none x = x ∧ mini2input x0 none y false = y := by
  refine ⟨?_, ?_, rfl, rfl⟩
  · intro hi hfree
    have hmem : i ∈ INDFREE f := (mem_INDFREE f i).mpr ⟨hi, hfree⟩
    simp only [mini2input, input2mini, Bool.false_eq_true, if_false]
    exact getD_writeFree_map (INDFREE f) (fun j => x.getD j 0) x0 i
      (nodup_INDFREE f)
      (fun j hj => by
        have hj' := (mem_INDFREE f j).mp hj
        omega)
      hmem
  · intro hfix
    have hnot : i ∉ INDFREE f := by
      intro hmem
      have hchar := (mem_INDFREE f i).mp hmem
      rw [hfix] at hchar
      exact absurd hchar.2 (by simp)
    simp only [mini2input, input2mini, Bool.false_eq_true, if_false]
    exact getD_writeFree_not_mem _ _ _ i hnot

/-- Witness for C4: mask `[true, false, true]`, `x = [1, 2, 3]`,
`x0 = [10, 20, 30]` — the round trip gives `2` at the free index `1` and
`10` at the fixed index `0`. -/
theorem mini2input_input2mini_roundtrip_witness :
    ((1 : Nat) < [true, false, true].length) ∧
    ((mini2input [10, 20, 30] (some [true, false, true])
        (input2mini (some [true, false, true]) [1, 2, 3]) false).getD 1 0 =
      ([1, 2, 3] : List ℚ).getD 1 0) ∧
    ((mini2input [10, 20, 30] (some [true, false, true])
        (input2mini (some [true, false, true]) [1, 2, 3]) false).getD 0 0 =
      ([10, 20, 30] : List ℚ).getD 0 0) :=
  ⟨by decide,
    (mini2input_input2mini_roundtrip [10, 20, 30] [1, 2, 3] [7]
      [true, false, true] 1 rfl rfl).1 (by decide) (by decide),
    (mini2input_input2mini_roundtrip [10, 20, 30] [1, 2, 3] [7]
      [true, false, true] 0 rfl rfl).2.1 (by decide)⟩

/-- `List.getD` through `List.map`, inside the list's length. -/
theorem getD_map_of_lt (l : List Nat) (g : Nat → ℚ) (k : Nat)
    (hk : k < l.length) :
    (l.map g).getD k 0 = g (l.getD k 0) := by
  rw [List.getD_eq_getElem (l.map g) 0 (by simpa using hk), List.getElem_map,
    List.getD_eq_getElem l 0 hk]

/-- C6: Bounds reduction — for bounds of length `N` and a fixed mask,
`get_bounds` returns a pair of sequences each of length equal to the number
of free parameters, the `k`-th entry of the reduced lower (resp. upper)
bounds equals the full lower (resp. upper) bound at the `k`-th free index;
with no mask it returns the model's bounds unchanged. -/
theorem get_bounds_spec (f : List Bool) (bl bu : List ℚ) (k : Nat)
    (hk : k < (INDFREE f).length) :
    (get_bounds (some f) (bl, bu)).1.length = f.countP (fun b => !b) ∧
    (get_bounds (some f) (bl, bu)).2.length = f.countP (fun b => !b) ∧
    (get_bounds (some f) (bl, bu)).1.getD k 0 =
      bl.getD ((INDFREE f).getD k 0) 0 ∧
    (get_bounds (some f) (bl, bu)).2.getD k 0 =
      bu.getD ((INDFREE f).getD k 0) 0 ∧
    get_bounds none (bl, bu) = (bl, bu) := by
  refine ⟨?_, ?_, ?_, ?_, rfl⟩
  · simp [get_bounds, length_INDFREE]
  · simp [get_bounds, length_INDFREE]
  · simp only [get_bounds]
    exact getD_map_of_lt (INDFREE f) (fun i => bl.getD i 0) k hk
  · simp only [get_bounds]
    exact getD_map_of_lt (INDFREE f) (fun i => bu.getD i 0) k hk

/-- Witness for C6: mask `[true, false]`, bounds `([3, 4], [8, 9])` — the
reduced bounds are `([4], [9])`, of length `1 =` number of free
parameters. -/
theorem get_bounds_spec_witness :
    ((0 : Nat) < (INDFREE [true, false]).length) ∧
    (get_bounds (some [true, false]) ([3, 4], [8, 9])).1.length =
      [true, false].countP (fun b => !b) ∧
    (get_bounds (some [true, false]) ([3, 4], [8, 9])).1.getD 0 0 =
      ([3, 4] : List ℚ).getD ((INDFREE [true, false]).getD 0 0) 0 :=
  ⟨by decide,
    (get_bounds_spec [true, false] [3, 4] [8, 9] 0 (by decide)).1,
    (get_bounds_spec [true, false] [3, 4] [8, 9] 0 (by decide)).2.2.1⟩

/-- C7: Fixed-mask length validation — whenever `fixed` is given with a
length different from `len(x0)`, `psfFitting` fails with a `ValueError`,
and the outcome does not depend on the solver or the confidence-interval
routine (so neither is ever invoked). -/
theorem psfFitting_fixed_length_error (image : List (List ℚ))
    (psfModelInst : List ℚ → List (List ℚ)) (modelBounds : List ℚ × List ℚ)
    (x0 : List ℚ) (weights : Option (List (List ℚ))) (f : List Bool)
    (method : String) (verbose : ℤ) (sqrtFn : ℚ → ℚ)
    (hlen : f.length ≠ x0.length) :
    ∃ e, ∀ (solver : SolverCall →
        (Nat → List ℚ → List ℚ × Nat × Bool) → SolverOutput)
      (confidence_interval : List ℚ → List (List ℚ) → List ℚ),
      psfFitting image psfModelInst modelBounds x0 weights (some f) method
        verbose sqrtFn solver confidence_interval = Except.error e := by
  cases weights with
  | none =>
    refine ⟨"When defined, fixed must be same size as x0", fun s c => ?_⟩
    simp [psfFitting, checkFixedThen, hlen]
  | some w =>
    by_cases hw : image.length = w.length
    · refine ⟨"When defined, fixed must be same size as x0", fun s c => ?_⟩
      simp [psfFitting, checkFixedThen, hw, hlen]
    · refine ⟨"Keyword weights must have same number of elements as psf",
        fun s c => ?_⟩
      simp [psfFitting, hw]

/-- Witness for C7: a mask of length 1 against `x0` of length 2 makes the
fit fail with an error, whatever the solver. -/
theorem psfFitting_fixed_length_error_witness :
    ([true].length ≠ ([1, 2] : List ℚ).length) ∧
    ∃ e, ∀ (solver : SolverCall →
        (Nat → List ℚ → List ℚ × Nat × Bool) → SolverOutput)
      (confidence_interval : List ℚ → List (List ℚ) → List ℚ),
      psfFitting [[(1 : ℚ)]] (fun _ => [[1]]) ([0], [9]) [1, 2] none
        (some [true]) "trf" 0 id solver confidence_interval =
        Except.error e :=
  ⟨by decide,
    psfFitting_fixed_length_error [[(1 : ℚ)]] (fun _ => [[1]]) ([0], [9])
      [1, 2] none [true] "trf" 0 id (by decide)⟩

/-- C3 (code bug): the weights validation of line 87 compares only
`len(image)` with `len(weights)` — the numbers of *rows* of the two 2-D
arrays — although its own error message demands the "same number of
elements". A 2×3 image with a 2×2 weight map (6 vs 4 elements, but 2 = 2
rows) passes validation, and the call proceeds to the solver instead of
raising `ValueError`. -/
theorem psfFitting_weights_elemcount_bug :
    numel [[1, 1, 1], [1, 1, 1]] = 6 ∧ numel [[1, 1], [1, 1]] = 4 ∧
    (psfFitting [[1, 1, 1], [1, 1, 1]] (fun _ => [[1, 1, 1], [1, 1, 1]])
        ([0], [9]) [1] (some [[1, 1], [1, 1]]) none "lm" 0 id
        (fun _ _ => ⟨[1], [0], [[1]]⟩) (fun _ _ => [0])).isOk = true :=
  ⟨rfl, rfl, rfl⟩

/-- C5: Residual evaluator — each invocation of the cost callable expands
the free vector `y` to full parameters via `mini2input`, evaluates the PSF
model there, returns `sqrt(weights) * (model_image − image)` flattened to a
1-D vector of length `H*W`, and increments the iteration counter by exactly
one. -/
theorem costCall_spec (sqrtFn : ℚ → ℚ) (w image : List (List ℚ))
    (psfModelInst : List ℚ → List (List ℚ)) (x0 : List ℚ)
    (fixed : Option (List Bool)) (method : String) (verbose : ℤ)
    (iter : Nat) (y : List ℚ) (H W : Nat)
    (himg : image.length = H) (himgr : ∀ r ∈ image, r.length = W)
    (hw : w.length = H) (hwr : ∀ r ∈ w, r.length = W)
    (hm : (psfModelInst (mini2input x0 fixed y false)).length = H)
    (hmr : ∀ r ∈ psfModelInst (mini2input x0 fixed y false), r.length = W) :
    costCall (w.map (fun row => row.map sqrtFn)) image psfModelInst x0 fixed
        method verbose iter y =
      ((matHad (w.map (fun row => row.map sqrtFn))
          (matSub (psfModelInst (mini2input x0 fixed y false)) image)).flatten,
        iter + 1, tickCond method verbose iter) ∧
    (costCall (w.map (fun row => row.map sqrtFn)) image psfModelInst x0 fixed
        method verbose iter y).1.length = H * W := by
  refine ⟨rfl, ?_⟩
  have hsqW1 : (w.map (fun row => row.map sqrtFn)).length = H := by
    simpa using hw
  have hsqW2 : ∀ r ∈ w.map (fun row => row.map sqrtFn), r.length = W := by
    intro r hrm
    rcases List.mem_map.mp hrm with ⟨s, hs, rfl⟩
    simpa using hwr s hs
  obtain ⟨hsub1, hsub2⟩ := shape_zipWith (fun a b => a - b)
    (psfModelInst (mini2input x0 fixed y false)) image W
    (by rw [hm, himg]) hmr himgr
  obtain ⟨hhad1, hhad2⟩ := shape_zipWith (fun a b => a * b)
    (w.map (fun row => row.map sqrtFn))
    (List.zipWith (List.zipWith (fun a b => a - b))
      (psfModelInst (mini2input x0 fixed y false)) image) W
    (by rw [hsqW1, hsub1, hm]) hsqW2 hsub2
  show (matHad _ (matSub _ _)).flatten.length = H * W
  simp only [matHad, matSub]
  rw [length_flatten_of_rows _ W hhad2, hhad1, hsqW1]

/-- Witness for C5: a 2×2 image with unit weights and a zero model output
gives a residual of length `2 * 2 = 4` and counter `0 + 1`. -/
theorem costCall_spec_witness :
    ((([[1, 1], [2, 2]] : List (List ℚ)).length = 2) ∧
      (costCall ([[(1 : ℚ), 1], [2, 2]].map (fun row => row.map id))
        [[1, 1], [2, 2]] (fun _ => [[0, 0], [0, 0]]) [] none "lm" 0 0
        []).1.length = 2 * 2) ∧
    (costCall ([[(1 : ℚ), 1], [2, 2]].map (fun row => row.map id))
        [[1, 1], [2, 2]] (fun _ => [[0, 0], [0, 0]]) [] none "lm" 0 0
        []).2.1 = 0 + 1 :=
  ⟨⟨by decide,
    (costCall_spec id [[1, 1], [2, 2]] [[1, 1], [2, 2]]
      (fun _ => [[0, 0], [0, 0]]) [] none "lm" 0 0 [] 2 2 (by decide)
      (by decide) (by decide) (by decide) (by decide) (by decide)).2⟩,
   by decide⟩

/-- C8: Confidence-interval expansion — `result.xerr` is the
confidence-interval routine's output expanded to full parameter length via
`mini2input` with `forceZero = false`, so at every fixed index `i`,
`result.xerr[i]` equals the original initial value `x0[i]`. -/
theorem psfFitting_xerr_expansion (image : List (List ℚ))
    (psfModelInst : List ℚ → List (List ℚ)) (modelBounds : List ℚ × List ℚ)
    (x0 : List ℚ) (weights : Option (List (List ℚ))) (f : List Bool)
    (method : String) (verbose : ℤ) (sqrtFn : ℚ → ℚ)
    (solver : SolverCall → (Nat → List ℚ → List ℚ × Nat × Bool) → SolverOutput)
    (confidence_interval : List ℚ → List (List ℚ) → List ℚ) (r : FitResult)
    (i : Nat)
    (hok : psfFitting image psfModelInst modelBounds x0 weights (some f)
      method verbose sqrtFn solver confidence_interval = Except.ok r)
    (hfix : f.getD i true = true) :
    r.xerr = mini2input x0 (some f)
      (confidence_interval
        (solver (solverCall (some f) x0 method modelBounds)
          (costCall
            ((usedWeights image weights).map (fun row => row.map sqrtFn))
            image psfModelInst x0 (some f) method verbose)).fun_
        (solver (solverCall (some f) x0 method modelBounds)
          (costCall
            ((usedWeights image weights).map (fun row => row.map sqrtFn))
            image psfModelInst x0 (some f) method verbose)).jac) false ∧
    r.xerr.getD i 0 = x0.getD i 0 := by
  have hr := psfFitting_ok image psfModelInst modelBounds x0 weights (some f)
    method verbose sqrtFn solver confidence_interval r hok
  constructor
  · rw [hr]; rfl
  · rw [hr]
    simp only [fitRecord, mini2input, Bool.false_eq_true, if_false]
    refine getD_writeFree_not_mem _ _ _ i (fun hmem => ?_)
    have hchar := (mem_INDFREE f i).mp hmem
    rw [hfix] at hchar
    exact absurd hchar.2 (by simp)

/-- Witness for C8: mask `[true, false, true]`, confidence-interval stub
returning `[5]` — `xerr = [1, 5, 3]`, and at the fixed index `0` it is the
initial `1`, not zero and not a computed half-width. -/
theorem psfFitting_xerr_expansion_witness :
    (psfFitting [[(1 : ℚ)]] (fun _ => [[1]]) ([0, 0, 0], [9, 9, 9])
        [1, 2, 3] none (some [true, false, true]) "lm" 0 id
        (fun _ _ => ⟨[99], [0], [[1]]⟩) (fun _ _ => [5]) =
      Except.ok ⟨[1, 99, 3], [1, 2, 3], [1, 5, 3], ⟨"lm", [2], none⟩⟩) ∧
    (([1, 5, 3] : List ℚ).getD 0 0 = ([1, 2, 3] : List ℚ).getD 0 0) :=
  ⟨rfl,
    (psfFitting_xerr_expansion [[(1 : ℚ)]] (fun _ => [[1]])
      ([0, 0, 0], [9, 9, 9]) [1, 2, 3] none [true, false, true] "lm" 0 id
      (fun _ _ => ⟨[99], [0], [[1]]⟩) (fun _ _ => [5])
      ⟨[1, 99, 3], [1, 2, 3], [1, 5, 3], ⟨"lm", [2], none⟩⟩ 0 rfl
      (by decide)).2⟩

/-- C9 counterexample: at iteration 0 of a `method = "trf"`, `verbose = 0`
fit the cost evaluator *does* emit a tick (`verbose != 2` holds), although
the claim's condition — non-trust-region method and non-quiet verbosity —
is false there. -/
theorem tickCond_trf_counterexample :
    tickCond "trf" 0 0 = true ∧
    ¬(("trf" : String) ≠ "trf" ∧ (0 : ℤ) ≠ 0) := by
  refine ⟨rfl, ?_⟩
  intro hcontra
  exact hcontra.1 rfl

/-- C9 (amended): the tick fires exactly when the pre-increment counter is
divisible by 3 and the `method` *argument* equals `"lm"` or `verbose ≠ 2`
(so in particular a `"trf"` fit with `verbose ≠ 2` also ticks); the tick
has no effect on the residual value or the counter update. -/
theorem tickCond_spec (method method' : String) (verbose verbose' : ℤ)
    (iter : Nat) (sqW image : List (List ℚ))
    (psfModelInst : List ℚ → List (List ℚ)) (x0 : List ℚ)
    (fixed : Option (List Bool)) (y : List ℚ) :
    (tickCond method verbose iter = true ↔
      (iter % 3 = 0 ∧ (method = "lm" ∨ verbose ≠ 2))) ∧
    (costCall sqW image psfModelInst x0 fixed method verbose iter y).2.2 =
      tickCond method verbose iter ∧
    (costCall sqW image psfModelInst x0 fixed method verbose iter y).1 =
      (costCall sqW image psfModelInst x0 fixed method' verbose' iter y).1 ∧
    (costCall sqW image psfModelInst x0 fixed method verbose iter y).2.1 =
      (costCall sqW image psfModelInst x0 fixed method' verbose' iter y).2.1 := by
  refine ⟨?_, rfl, rfl, rfl⟩
  simp [tickCond, Bool.and_eq_true, beq_iff_eq, Bool.or_eq_true, bne_iff_ne]

/-! ## Heap lemmas for the frame property -/

theorem heapRead_heapWrite_ne (h : Heap) (r r' i : Nat) (v : ℚ)
    (hne : r' ≠ r) :
    heapRead (heapWrite h r i v) r' = heapRead h r' := by
  simp [heapRead, heapWrite, List.getD_eq_getElem?_getD,
    List.getElem?_set_ne (Ne.symm hne)]

theorem length_heapWrite (h : Heap) (r i : Nat) (v : ℚ) :
    (heapWrite h r i v).length = h.length := by
  simp [heapWrite]

theorem heapRead_heapWrite_self (h : Heap) (r i : Nat) (v : ℚ)
    (hr : r < h.length) :
    heapRead (heapWrite h r i v) r = (heapRead h r).set i v := by
  simp [heapRead, heapWrite, List.getD_eq_getElem?_getD,
    List.getElem?_set_self, hr]

theorem writeFreeHeap_frame :
    ∀ (ind : List Nat) (y : List ℚ) (h : Heap) (r r' : Nat), r' ≠ r →
      heapRead (writeFreeHeap h r ind y) r' = heapRead h r' := by
  intro ind
  induction ind with
  | nil => intro y h r r' _; cases y <;> rfl
  | cons i is ih =>
    intro y h r r' hne
    cases y with
    | nil => rfl
    | cons v vs =>
      simp only [writeFreeHeap]
      rw [ih vs (heapWrite h r i v) r r' hne]
      exact heapRead_heapWrite_ne h r r' i v hne

theorem writeFreeHeap_self :
    ∀ (ind : List Nat) (y : List ℚ) (h : Heap) (r : Nat), r < h.length →
      heapRead (writeFreeHeap h r ind y) r = writeFree (heapRead h r) ind y := by
  intro ind
  induction ind with
  | nil => intro y h r _; cases y <;> rfl
  | cons i is ih =>
    intro y h r hr
    cases y with
    | nil => rfl
    | cons v vs =>
      simp only [writeFreeHeap]
      rw [ih vs (heapWrite h r i v) r (by rw [length_heapWrite]; exact hr),
        heapRead_heapWrite_self h r i v hr]
      rfl

theorem heapRead_append_lt (h : Heap) (v : List ℚ) (r : Nat)
    (hr : r < h.length) :
    heapRead (h ++ [v]) r = heapRead h r := by
  simp [heapRead, List.getD_eq_getElem?_getD, List.getElem?_append_left hr]

theorem heapRead_append_self (h : Heap) (v : List ℚ) :
    heapRead (h ++ [v]) h.length = v := by
  simp [heapRead, List.getD_eq_getElem?_getD]

theorem heapRead_heapAlloc_old (h : Heap) (v : List ℚ) (r : Nat)
    (hr : r < h.length) :
    heapRead (heapAlloc h v).1 r = heapRead h r :=
  heapRead_append_lt h v r hr

theorem heapRead_heapAlloc_new (h : Heap) (v : List ℚ) :
    heapRead (heapAlloc h v).1 (heapAlloc h v).2 = v :=
  heapRead_append_self h v

/-- C10: Initial-guess preservation — `mini2input` writes only into the
fresh buffer allocated by `np.copy(x0)` / `np.zeros_like(x0)`, never into
the caller's `x0` buffer, so `x0`'s buffer holds its original values after
any number of expansions; moreover a completed fit reports
`result.xinit = x0` as passed in. -/
theorem mini2inputHeap_frame (h : Heap) (x0ref : Nat)
    (fixed : Option (List Bool)) (y : List ℚ) (forceZero : Bool)
    (image : List (List ℚ)) (psfModelInst : List ℚ → List (List ℚ))
    (modelBounds : List ℚ × List ℚ) (weights : Option (List (List ℚ)))
    (method : String) (verbose : ℤ) (sqrtFn : ℚ → ℚ)
    (solver : SolverCall → (Nat → List ℚ → List ℚ × Nat × Bool) → SolverOutput)
    (confidence_interval : List ℚ → List (List ℚ) → List ℚ) (r : FitResult)
    (href : x0ref < h.length)
    (hok : psfFitting image psfModelInst modelBounds (heapRead h x0ref)
      weights fixed method verbose sqrtFn solver confidence_interval =
      Except.ok r) :
    heapRead (mini2inputHeap h x0ref fixed y forceZero).1 x0ref =
      heapRead h x0ref ∧
    (mini2inputHeap h x0ref fixed y forceZero).2 ≠ x0ref ∧
    heapRead (mini2inputHeap h x0ref fixed y forceZero).1
        (mini2inputHeap h x0ref fixed y forceZero).2 =
      mini2input (heapRead h x0ref) fixed y forceZero ∧
    r.xinit = heapRead h x0ref := by
  have hxinit : r.xinit = heapRead h x0ref := by
    have hr := psfFitting_ok image psfModelInst modelBounds (heapRead h x0ref)
      weights fixed method verbose sqrtFn solver confidence_interval r hok
    rw [hr]
    simp [fitRecord]
  cases fixed with
  | none =>
    refine ⟨?_, ?_, ?_, hxinit⟩
    · exact heapRead_heapAlloc_old h y x0ref href
    · simp only [mini2inputHeap, heapAlloc]
      omega
    · exact heapRead_heapAlloc_new h y
  | some f =>
    have hfresh : x0ref ≠ h.length := Nat.ne_of_lt href
    simp only [mini2inputHeap, heapAlloc, mini2input]
    refine ⟨?_, by omega, ?_, hxinit⟩
    · rw [writeFreeHeap_frame (INDFREE f) y _ h.length x0ref hfresh]
      exact heapRead_append_lt h _ x0ref href
    · rw [writeFreeHeap_self (INDFREE f) y _ h.length (by simp),
        heapRead_append_self h _]

/-- Witness for C10: heap with the single buffer `[1, 2, 3]`, mask
`[true, false, true]`, write-back of `[9]` — the `x0` buffer is unchanged,
the result lives in a fresh buffer, and the fit reports
`xinit = [1, 2, 3]`. -/
theorem mini2inputHeap_frame_witness :
    (heapRead (mini2inputHeap [[1, 2, 3]] 0 (some [true, false, true]) [9]
        false).1 0 = heapRead [[1, 2, 3]] 0) ∧
    ((mini2inputHeap [[1, 2, 3]] 0 (some [true, false, true]) [9]
        false).2 ≠ 0) ∧
    (FitResult.xinit ⟨[1, 9, 3], [1, 2, 3], [1, 5, 3], ⟨"lm", [2], none⟩⟩ =
      heapRead [[1, 2, 3]] 0) := by
  have happ := mini2inputHeap_frame [[1, 2, 3]] 0 (some [true, false, true])
    [9] false [[(1 : ℚ)]] (fun _ => [[1]]) ([0, 0, 0], [9, 9, 9]) none
    "dogbox" 0 id (fun _ _ => ⟨[9], [0], [[1]]⟩) (fun _ _ => [5])
    ⟨[1, 9, 3], [1, 2, 3], [1, 5, 3], ⟨"lm", [2], none⟩⟩
    (by decide) rfl
  exact ⟨happ.1, happ.2.1, happ.2.2.2⟩

end PsfFit
